import Mathlib

/-!
Verification of the core stage/movement state machine of the maze game
(`app/maze_game.py`, with `app/maze_game_local.py` as a variant).

The embedding is shallow: the mutable `MazeGame` object becomes an explicit
`GameState` record, layout strings become `List Char`, Python string helpers
(`strip`, `split`) are translated as executable Lean functions with the same
semantics, and the two external collaborators become parameters:

* the level source (`APIClient.get_level_data` / `LocalDatabaseHandler.get_stage`)
  returns an `Option StageData` per call; each call site takes the response
  `resp` as an argument, so a response may succeed or fail independently at
  every call, as the real network/database lookup may;
* the analytics sink (`AnalyticsHandler.send_*`) is modelled by the list of
  `Event` values a transition emits (fire and forget, so only the emission
  itself is relevant).

Wall-clock instants (`time.time()`) are abstracted as integer timestamps
passed in as `now`; elapsed times are the differences the code computes.
-/

/-- Python whitespace characters removed by `str.strip()` (ASCII range). -/
def pyIsSpace (c : Char) : Bool :=
  c = ' ' || c = '\t' || c = '\n' || c = '\r' || c = '\x0b' || c = '\x0c'

/-- Python `str.lstrip()`: drop leading whitespace. -/
def lstrip : List Char → List Char
  | [] => []
  | c :: rest => if pyIsSpace c then lstrip rest else c :: rest

/-- Python `str.rstrip()`: drop trailing whitespace. -/
def rstrip : List Char → List Char
  | [] => []
  | c :: rest =>
    let r := rstrip rest
    if r.isEmpty && pyIsSpace c then [] else c :: r

/-- Python `str.strip()`: drop whitespace at both ends. -/
def pyStrip (l : List Char) : List Char := lstrip (rstrip l)

/-- Python `str.split('\n')` with an explicit separator: never returns an
empty list; the empty string splits to `[[]]` (one empty field). -/
def pySplit : List Char → List (List Char)
  | [] => [[]]
  | c :: rest =>
    if c = '\n' then [] :: pySplit rest
    else
      match pySplit rest with
      | [] => [[c]]
      | r :: rs => (c :: r) :: rs

/-- The maze parsing done inline in `MazeGame.load_stage`:
`self.stage_data['layout'].strip().split('\n')`, each line turned into a
list of cells (`list(line)` is the identity on `List Char`). -/
def parseMaze (layout : List Char) : List (List Char) :=
  pySplit (pyStrip layout)

/-- Joining rows with newline separators: the shape of a layout string
consisting of the given rows.  Used to state the round-trip property. -/
def joinNL : List (List Char) → List Char
  | [] => []
  | [r] => r
  | r :: rest => r ++ '\n' :: joinNL rest

/-- The three game phases (`STATE_PLAYING`, `STATE_STAGE_COMPLETE`,
`STATE_GAME_COMPLETE` string constants in the source). -/
inductive Phase where
  | playing
  | stageComplete
  | gameComplete
deriving DecidableEq

/-- Keyboard keys as seen by `handle_movement`: the four arrow keys, and
`other` for every non-arrow key (the `else: return` branch). -/
inductive Key where
  | up
  | down
  | left
  | right
  | other
deriving DecidableEq

/-- The coordinate delta of an arrow key (`none` for a non-arrow key). -/
def keyDelta : Key → Option (Int × Int)
  | Key.up => some (0, -1)
  | Key.down => some (0, 1)
  | Key.left => some (-1, 0)
  | Key.right => some (1, 0)
  | Key.other => none

/-- Analytics events sent through `AnalyticsHandler`. -/
inductive Event where
  | game_start
  | level_complete (stage : Nat) (elapsed : Int) (moves : Nat)
  | game_complete (total_time : Int) (total_moves : Nat)
deriving DecidableEq

/-- The fields of the level-source response dictionary that `load_stage`
reads: `layout`, `start_x`, `start_y`, `end_x`, `end_y`. -/
structure StageData where
  layout : List Char
  start_x : Int
  start_y : Int
  end_x : Int
  end_y : Int
deriving DecidableEq

/-- The mutable gameplay state of a `MazeGame` object (its drawing-only
fields are omitted). -/
structure GameState where
  current_stage : Nat
  total_stages : Nat
  stage_data : Option StageData
  maze : List (List Char)
  player_x : Int
  player_y : Int
  end_x : Int
  end_y : Int
  game_state : Phase
  running : Bool
  stage_start_time : Int
  stage_moves : Nat
  total_moves : Nat
  game_start_time : Int
deriving DecidableEq

/-- The state set up by `MazeGame.__init__`. -/
def initState : GameState :=
  { current_stage := 1
    total_stages := 10
    stage_data := none
    maze := []
    player_x := 0
    player_y := 0
    end_x := 0
    end_y := 0
    game_state := Phase.playing
    running := true
    stage_start_time := 0
    stage_moves := 0
    total_moves := 0
    game_start_time := 0 }

/-- `MazeGame.load_stage(stage_number)`: `resp` is the value returned by
`self.api_client.get_level_data(stage_number)`.  On a falsy response the
method stores it in `self.stage_data` and returns `False`, touching nothing
else; on success it parses the layout, places player and goal, resets the
stage timer and move counter, and enters the playing phase. -/
def load_stage (resp : Option StageData) (now : Int) (s : GameState) :
    GameState × Bool :=
  match resp with
  | none => ({ s with stage_data := none }, false)
  | some d =>
    ({ s with
        stage_data := some d
        maze := parseMaze d.layout
        player_x := d.start_x
        player_y := d.start_y
        end_x := d.end_x
        end_y := d.end_y
        stage_start_time := now
        stage_moves := 0
        game_state := Phase.playing }, true)

/-- `MazeGame.is_valid_move(x, y)`: bounds-checked per row (rows may be
ragged), then a wall test on the addressed cell. -/
def is_valid_move (maze : List (List Char)) (x y : Int) : Bool :=
  if y < 0 ∨ (maze.length : Int) ≤ y then false
  else if x < 0 ∨ ((maze.getD y.toNat []).length : Int) ≤ x then false
  else (maze.getD y.toNat []).getD x.toNat ' ' != '#'

/-- `MazeGame.stage_completed()`: emits `level_complete` with the frozen
elapsed time and current stage move count, then either finishes the game
(emitting `game_complete` as well) or enters the stage-complete phase. -/
def stage_completed (now : Int) (s : GameState) : GameState × List Event :=
  let stage_time := now - s.stage_start_time
  if s.total_stages ≤ s.current_stage then
    ({ s with game_state := Phase.gameComplete },
      [Event.level_complete s.current_stage stage_time s.stage_moves,
       Event.game_complete (now - s.game_start_time) s.total_moves])
  else
    ({ s with game_state := Phase.stageComplete },
      [Event.level_complete s.current_stage stage_time s.stage_moves])

/-- `MazeGame.handle_movement(key)`: compute the destination from the arrow
key (non-arrow keys return immediately), validate locally, and on success
update the player, bump both move counters, and check for the goal. -/
def handle_movement (now : Int) (s : GameState) (k : Key) :
    GameState × List Event :=
  match keyDelta k with
  | none => (s, [])
  | some (dx, dy) =>
    let new_x := s.player_x + dx
    let new_y := s.player_y + dy
    if is_valid_move s.maze new_x new_y then
      let s1 := { s with
        player_x := new_x
        player_y := new_y
        stage_moves := s.stage_moves + 1
        total_moves := s.total_moves + 1 }
      if s1.player_x = s1.end_x ∧ s1.player_y = s1.end_y then
        stage_completed now s1
      else (s1, [])
    else (s, [])

/-- `MazeGame.next_stage()`: increments the stage counter, then loads the
next stage if it is still within range, else declares the game complete.
The result of the load is discarded by the caller. -/
def next_stage (resp : Option StageData) (now : Int) (s : GameState) :
    GameState :=
  let s1 := { s with current_stage := s.current_stage + 1 }
  if s1.current_stage ≤ s1.total_stages then (load_stage resp now s1).1
  else { s1 with game_state := Phase.gameComplete }

/-- `MazeGame.restart_game()`: back to stage 1 with cleared totals, a fresh
game clock, a `game_start` event, and a reload of stage 1. -/
def restart_game (resp : Option StageData) (now : Int) (s : GameState) :
    GameState × List Event :=
  let s1 := { s with
    current_stage := 1
    total_moves := 0
    game_start_time := now }
  ((load_stage resp now s1).1, [Event.game_start])

/-- `MazeGame.initialize()` as far as gameplay state is concerned: anchor
the game clock and load stage 1 (`self.current_stage`); the boolean result
tells whether startup succeeded. -/
def initGame (resp : Option StageData) (now : Int) : GameState × Bool :=
  load_stage resp now { initState with game_start_time := now }

/-- The discrete input events `handle_events` reacts to: window close,
a key press, and a mouse click (`hit` records whether the click landed on
the continue/play-again button). -/
inductive Input where
  | quit
  | key (k : Key)
  | click (hit : Bool)
deriving DecidableEq

/-- One iteration of the dispatch in `MazeGame.handle_events()`: keys are
routed to `handle_movement` only while playing; clicks trigger
`next_stage` from the stage-complete popup and `restart_game` from the
game-complete popup; everything else falls through unchanged. -/
def handle_event (resp : Option StageData) (now : Int) (s : GameState)
    (i : Input) : GameState × List Event :=
  match i with
  | Input.quit => ({ s with running := false }, [])
  | Input.key k =>
    if s.game_state = Phase.playing then handle_movement now s k else (s, [])
  | Input.click hit =>
    if s.game_state = Phase.stageComplete then
      if hit then (next_stage resp now s, []) else (s, [])
    else if s.game_state = Phase.gameComplete then
      if hit then restart_game resp now s else (s, [])
    else (s, [])

/-- A concrete one-row demo stage: layout `".."`, start `(0, 0)`,
goal `(1, 0)` (one Right move reaches the goal). -/
def demoStage : StageData :=
  { layout := ['.', '.']
    start_x := 0
    start_y := 0
    end_x := 1
    end_y := 0 }

/-- A stage whose layout is the empty string. -/
def emptyStage : StageData :=
  { layout := []
    start_x := 0
    start_y := 0
    end_x := 0
    end_y := 0 }


/-- The walkability query as §4.1 of the design describes it: true exactly
for an in-bounds (per-row, ragged-tolerant) cell that is not a Wall
(`'#'`); false, never an error, for every out-of-bounds coordinate pair,
negative coordinates included. -/
def spec_is_open (maze : List (List Char)) (x y : Int) : Bool :=
  if 0 ≤ y ∧ y < (maze.length : Int) ∧
     0 ≤ x ∧ x < ((maze.getD y.toNat []).length : Int) then
    (maze.getD y.toNat []).getD x.toNat ' ' != '#'
  else false

/-- Whether a key press would be an accepted move (outcome `Moved` or
`ReachedGoal`) in the given state: the game is in the playing phase, the
key is an arrow key, and the destination passes `is_valid_move`. -/
def moveAccepted (s : GameState) (k : Key) : Bool :=
  match keyDelta k with
  | none => false
  | some (dx, dy) =>
    decide (s.game_state = Phase.playing) &&
      is_valid_move s.maze (s.player_x + dx) (s.player_y + dy)

/-- Feed a sequence of timestamped key presses through the event loop. -/
def runKeys : List (Key × Int) → GameState → GameState
  | [], s => s
  | (k, now) :: rest, s => runKeys rest (handle_event none now s (Input.key k)).1

/-- The number of accepted moves along a sequence of key presses. -/
def acceptedCount : List (Key × Int) → GameState → Nat
  | [], _ => 0
  | (k, now) :: rest, s =>
    (if moveAccepted s k then 1 else 0) +
      acceptedCount rest (handle_event none now s (Input.key k)).1

/-- Feed a sequence of (level-source response, timestamp, input) triples
through the event loop. -/
def runE : List (Option StageData × Int × Input) → GameState → GameState
  | [], s => s
  | (resp, now, i) :: rest, s => runE rest (handle_event resp now s i).1

/-- Game states reachable through the event loop from a successful startup,
where every level-source response used along the way satisfies `ok`
(`ok := fun _ => True` places no restriction: any call may fail;
`ok := fun r => r.isSome` means every stage load succeeds). -/
inductive ReachableE (ok : Option StageData → Prop) : GameState → Prop where
  | init (resp : Option StageData) (now : Int) :
      ok resp → (initGame resp now).2 = true →
      ReachableE ok (initGame resp now).1
  | step (s : GameState) (resp : Option StageData) (now : Int) (i : Input) :
      ok resp → ReachableE ok s →
      ReachableE ok (handle_event resp now s i).1

/-- Game states reachable from a successful startup by directly running the
four state-changing operations to completion, in any order, where every
level-source response used satisfies `ok`. -/
inductive ReachableOp (ok : Option StageData → Prop) : GameState → Prop where
  | init (resp : Option StageData) (now : Int) :
      ok resp → (initGame resp now).2 = true →
      ReachableOp ok (initGame resp now).1
  | move (s : GameState) (now : Int) (k : Key) :
      ReachableOp ok s → ReachableOp ok (handle_movement now s k).1
  | load (s : GameState) (resp : Option StageData) (now : Int) :
      ok resp → ReachableOp ok s → ReachableOp ok (load_stage resp now s).1
  | next (s : GameState) (resp : Option StageData) (now : Int) :
      ok resp → ReachableOp ok s → ReachableOp ok (next_stage resp now s)
  | restart (s : GameState) (resp : Option StageData) (now : Int) :
      ok resp → ReachableOp ok s → ReachableOp ok (restart_game resp now s).1

/-- A concrete input trace: complete stage 1 with one Right move, then
click continue eleven times while every level-source lookup fails. -/
def c2Trace : List (Option StageData × Int × Input) :=
  (some demoStage, 0, Input.key Key.right) ::
    List.replicate 10 (none, 0, Input.click true)

/-- The state the event loop reaches after `c2Trace` from a fresh game. -/
def c2BadState : GameState := runE c2Trace (initGame (some demoStage) 0).1

/-- A concrete input trace that plays all ten stages to completion, every
stage load succeeding: nine (move, continue) rounds and a final move. -/
def c2OkTrace : List (Option StageData × Int × Input) :=
  (List.replicate 9
    [((some demoStage : Option StageData), (0 : Int), Input.key Key.right),
      (some demoStage, 0, Input.click true)]).flatten ++
    [(some demoStage, 0, Input.key Key.right)]

/-- The state the event loop reaches after `c2OkTrace` from a fresh game. -/
def c2DoneState : GameState := runE c2OkTrace (initGame (some demoStage) 0).1

/-- The phase/stage-counter invariant that holds as long as every stage
load succeeds: the stage counter stays within range in the playing phase,
strictly below the total in the stage-complete phase, and exactly at the
total in the game-complete phase. -/
def PhaseInv (s : GameState) : Prop :=
  1 ≤ s.total_stages ∧
  (s.game_state = Phase.playing → s.current_stage ≤ s.total_stages) ∧
  (s.game_state = Phase.stageComplete → s.current_stage < s.total_stages) ∧
  (s.game_state = Phase.gameComplete → s.current_stage = s.total_stages)

lemma valid_move_eq_spec_open (maze : List (List Char)) (x y : Int) :
    is_valid_move maze x y = spec_is_open maze x y := by
  unfold is_valid_move spec_is_open
  split_ifs with h1 h2 h3 <;> first | rfl | (exfalso; omega)

/-- C6: the walkability query `is_valid_move` is total and agrees with the
specified `is_open`: false for every out-of-bounds coordinate pair
(negative coordinates and positions beyond the addressed row of a ragged
grid included), false for in-bounds Wall cells, true for in-bounds
non-Wall cells. -/
theorem C6_is_open_total (maze : List (List Char)) (x y : Int) :
    is_valid_move maze x y = spec_is_open maze x y :=
  valid_move_eq_spec_open maze x y

lemma stage_completed_player (now : Int) (s : GameState) :
    (stage_completed now s).1.player_x = s.player_x ∧
      (stage_completed now s).1.player_y = s.player_y := by
  unfold stage_completed
  split_ifs <;> exact ⟨rfl, rfl⟩

/-- C1: for every maze, player position and arrow key, the movement handler
moves the player to exactly the position shifted by the key's delta when
the destination is in bounds and not a Wall, and leaves the position
unchanged in every other case. -/
theorem C1_movement_exact (now : Int) (s : GameState) (k : Key)
    (dx dy : Int) (h : keyDelta k = some (dx, dy)) :
    ((handle_movement now s k).1.player_x, (handle_movement now s k).1.player_y) =
      if spec_is_open s.maze (s.player_x + dx) (s.player_y + dy) then
        (s.player_x + dx, s.player_y + dy)
      else (s.player_x, s.player_y) := by
  have hv := valid_move_eq_spec_open s.maze (s.player_x + dx) (s.player_y + dy)
  unfold handle_movement
  rw [h]
  cases hb : spec_is_open s.maze (s.player_x + dx) (s.player_y + dy) with
  | false =>
    rw [hb] at hv
    simp only [hv, if_false, Bool.false_eq_true]
  | true =>
    rw [hb] at hv
    simp only [hv, if_true]
    split
    · rw [(stage_completed_player now _).1, (stage_completed_player now _).2]
    · rfl

/-- C1 witness: on the concrete one-row maze `".."` a Right move from
`(0, 0)` lands exactly on `(1, 0)`. -/
theorem C1_movement_exact_witness :
    ((handle_movement 0 { initState with maze := [['.', '.']] } Key.right).1.player_x,
      (handle_movement 0 { initState with maze := [['.', '.']] } Key.right).1.player_y) =
      if spec_is_open [['.', '.']] 1 0 then ((1 : Int), (0 : Int)) else (0, 0) :=
  C1_movement_exact 0 { initState with maze := [['.', '.']] } Key.right 1 0 rfl

lemma handle_event_key_nonplaying (resp : Option StageData) (now : Int)
    (s : GameState) (k : Key) (hp : s.game_state ≠ Phase.playing) :
    handle_event resp now s (Input.key k) = (s, []) := by
  simp [handle_event, hp]

lemma handle_event_click_playing (resp : Option StageData) (now : Int)
    (s : GameState) (hit : Bool) (hp : s.game_state = Phase.playing) :
    handle_event resp now s (Input.click hit) = (s, []) := by
  simp [handle_event, hp]

/-- C8: inputs outside the transition table are complete no-ops: a key
press while the phase is stage-complete or game-complete leaves the state
(and emitted events) untouched, and a click while playing does likewise. -/
theorem C8_unlisted_inputs_noop (resp : Option StageData) (now : Int)
    (s : GameState) (i : Input) :
    (∀ k, i = Input.key k → s.game_state ≠ Phase.playing →
      handle_event resp now s i = (s, [])) ∧
    (∀ hit, i = Input.click hit → s.game_state = Phase.playing →
      handle_event resp now s i = (s, [])) := by
  constructor
  · intro k hk hp
    subst hk
    exact handle_event_key_nonplaying resp now s k hp
  · intro hit hc hp
    subst hc
    exact handle_event_click_playing resp now s hit hp

/-- C8 witness: a Right key press in the stage-complete phase, and a click
in the playing phase, both leave the concrete initial-style states
unchanged. -/
theorem C8_unlisted_inputs_noop_witness :
    handle_event none 0 { initState with game_state := Phase.stageComplete }
        (Input.key Key.right) =
      ({ initState with game_state := Phase.stageComplete }, []) ∧
    handle_event none 0 initState (Input.click true) = (initState, []) :=
  ⟨(C8_unlisted_inputs_noop none 0 _ _).1 Key.right rfl (by decide),
    (C8_unlisted_inputs_noop none 0 _ _).2 true rfl (by decide)⟩

/-- C9: when the level source returns no data, `load_stage` reports failure
and leaves the maze, player position, goal position, stage move counter,
total move counter and phase exactly as they were. -/
theorem C9_failed_load_frame (now : Int) (s : GameState) :
    (load_stage none now s).2 = false ∧
    (load_stage none now s).1.maze = s.maze ∧
    (load_stage none now s).1.player_x = s.player_x ∧
    (load_stage none now s).1.player_y = s.player_y ∧
    (load_stage none now s).1.end_x = s.end_x ∧
    (load_stage none now s).1.end_y = s.end_y ∧
    (load_stage none now s).1.stage_moves = s.stage_moves ∧
    (load_stage none now s).1.total_moves = s.total_moves ∧
    (load_stage none now s).1.game_state = s.game_state :=
  ⟨rfl, rfl, rfl, rfl, rfl, rfl, rfl, rfl, rfl⟩

lemma stage_completed_stage_moves (now : Int) (s : GameState) :
    (stage_completed now s).1.stage_moves = s.stage_moves := by
  unfold stage_completed
  split_ifs <;> rfl

lemma stage_moves_key_step (now : Int) (s : GameState) (k : Key) :
    (handle_event none now s (Input.key k)).1.stage_moves =
      s.stage_moves + (if moveAccepted s k then 1 else 0) := by
  unfold handle_event moveAccepted
  by_cases hp : s.game_state = Phase.playing
  · simp only [hp, if_true]
    unfold handle_movement
    cases hd : keyDelta k with
    | none => simp
    | some d =>
      obtain ⟨dx, dy⟩ := d
      simp only [decide_eq_true_eq, hp, decide_True, Bool.true_and]
      by_cases hv : is_valid_move s.maze (s.player_x + dx) (s.player_y + dy) = true
      · simp only [hv, if_true]
        split
        · rw [stage_completed_stage_moves]
        · rfl
      · simp only [Bool.not_eq_true] at hv
        simp [hv]
  · simp only [hp, if_false]
    have : ¬ s.game_state = Phase.playing := hp
    cases hd : keyDelta k with
    | none => simp
    | some d => simp [hp]

/-- C3: the stage move counter counts exactly the accepted moves: every
successful stage load resets it to 0, and running any sequence of key
presses adds exactly the number of accepted (Moved / ReachedGoal) moves in
that sequence, with rejected or ignored presses contributing nothing. -/
theorem C3_moves_counter :
    (∀ resp now s, (load_stage resp now s).2 = true →
      (load_stage resp now s).1.stage_moves = 0) ∧
    (∀ ks s, (runKeys ks s).stage_moves = s.stage_moves + acceptedCount ks s) := by
  constructor
  · intro resp now s h
    cases resp with
    | none => simp [load_stage] at h
    | some d => rfl
  · intro ks
    induction ks with
    | nil => intro s; simp [runKeys, acceptedCount]
    | cons p rest ih =>
      intro s
      obtain ⟨k, now⟩ := p
      show (runKeys rest (handle_event none now s (Input.key k)).1).stage_moves = _
      rw [ih]
      rw [stage_moves_key_step]
      show _ = s.stage_moves + ((if moveAccepted s k then 1 else 0) +
        acceptedCount rest (handle_event none now s (Input.key k)).1)
      omega

/-- C3 witness: on the concrete one-stage state, a single accepted Right
move yields counter 1, and a fresh successful load yields counter 0. -/
theorem C3_moves_counter_witness :
    (load_stage (some demoStage) 0 initState).1.stage_moves = 0 ∧
    (runKeys [(Key.right, 0)] { initState with maze := [['.', '.']] }).stage_moves =
      { initState with maze := [['.', '.']] }.stage_moves +
        acceptedCount [(Key.right, 0)] { initState with maze := [['.', '.']] } :=
  ⟨C3_moves_counter.1 _ 0 initState rfl,
    C3_moves_counter.2 [(Key.right, 0)] _⟩

/-- C4: an accepted move that lands exactly on the goal transitions to
stage-complete and emits one level-complete event carrying
(stage number, frozen elapsed time, incremented stage move count) when the
current stage is below the total, and transitions to game-complete,
emitting the level-complete event followed by a game-complete event
carrying (total time, incremented total move count), when the current stage
equals the total. -/
theorem C4_completion_events (now : Int) (s : GameState) (k : Key)
    (dx dy : Int) (h : keyDelta k = some (dx, dy))
    (hv : is_valid_move s.maze (s.player_x + dx) (s.player_y + dy) = true)
    (hx : s.player_x + dx = s.end_x) (hy : s.player_y + dy = s.end_y) :
    (s.current_stage < s.total_stages →
      (handle_movement now s k).1.game_state = Phase.stageComplete ∧
      (handle_movement now s k).2 =
        [Event.level_complete s.current_stage (now - s.stage_start_time)
          (s.stage_moves + 1)]) ∧
    (s.current_stage = s.total_stages →
      (handle_movement now s k).1.game_state = Phase.gameComplete ∧
      (handle_movement now s k).2 =
        [Event.level_complete s.current_stage (now - s.stage_start_time)
          (s.stage_moves + 1),
         Event.game_complete (now - s.game_start_time) (s.total_moves + 1)]) := by
  unfold handle_movement
  rw [h]
  simp only [hv, if_true]
  split
  · simp only [stage_completed]
    constructor
    · intro hlt
      rw [if_neg (show ¬ s.total_stages ≤ s.current_stage by omega)]
      exact ⟨rfl, rfl⟩
    · intro heq
      rw [if_pos (show s.total_stages ≤ s.current_stage by omega)]
      exact ⟨rfl, rfl⟩
  · next hc => exact absurd ⟨hx, hy⟩ hc

/-- C4 witness: on the concrete demo maze (stage 1 of 10) the Right move
onto the goal enters the stage-complete phase and emits exactly the
level-complete event for stage 1 with 1 move. -/
theorem C4_completion_events_witness :
    (handle_movement 0 { initState with maze := [['.', '.']], end_x := 1 }
        Key.right).1.game_state = Phase.stageComplete ∧
    (handle_movement 0 { initState with maze := [['.', '.']], end_x := 1 }
        Key.right).2 = [Event.level_complete 1 0 1] :=
  (C4_completion_events 0 { initState with maze := [['.', '.']], end_x := 1 }
      Key.right 1 0 rfl (by decide) (by decide) (by decide)).1 (by decide)

lemma pySplit_ne_nil (l : List Char) : pySplit l ≠ [] := by
  induction l with
  | nil => simp [pySplit]
  | cons c rest ih =>
    unfold pySplit
    split
    · simp
    · split <;> simp

lemma mem_of_mem_lstrip {c : Char} {l : List Char} (h : c ∈ lstrip l) :
    c ∈ l := by
  induction l with
  | nil => simp [lstrip] at h
  | cons a rest ih =>
    unfold lstrip at h
    split at h
    · exact List.mem_cons_of_mem a (ih h)
    · exact h

lemma mem_of_mem_rstrip {c : Char} {l : List Char} (h : c ∈ rstrip l) :
    c ∈ l := by
  induction l with
  | nil => simp [rstrip] at h
  | cons a rest ih =>
    unfold rstrip at h
    simp only [] at h
    split at h
    · exact absurd h (List.not_mem_nil c)
    · rcases List.mem_cons.mp h with h | h
      · exact h ▸ List.mem_cons_self a rest
      · exact List.mem_cons_of_mem a (ih h)

lemma rstrip_ne_nil {l : List Char} (h : ∃ c ∈ l, ¬ pyIsSpace c) :
    rstrip l ≠ [] := by
  induction l with
  | nil => simp at h
  | cons a rest ih =>
    obtain ⟨c, hc, hcs⟩ := h
    unfold rstrip
    simp only []
    rcases List.mem_cons.mp hc with rfl | hc
    · split
      · next hcond =>
        exact absurd (Bool.and_elim_right hcond) hcs
      · simp
    · have : rstrip rest ≠ [] := ih ⟨c, hc, hcs⟩
      split
      · next hcond =>
        have := Bool.and_elim_left hcond
        simp only [List.isEmpty_iff] at this
        exact absurd this ‹rstrip rest ≠ []›
      · simp

lemma rstrip_cons (c : Char) (l : List Char) :
    rstrip (c :: l) =
      if (rstrip l).isEmpty && pyIsSpace c then [] else c :: rstrip l := rfl

lemma pySplit_cons (c : Char) (l : List Char) :
    pySplit (c :: l) =
      if c = '\n' then [] :: pySplit l
      else
        match pySplit l with
        | [] => [[c]]
        | r :: rs => (c :: r) :: rs := rfl

lemma rstrip_append (a b : List Char) (h : ∃ c ∈ b, ¬ pyIsSpace c) :
    rstrip (a ++ b) = a ++ rstrip b := by
  induction a with
  | nil => rfl
  | cons x a' ih =>
    show rstrip (x :: (a' ++ b)) = x :: (a' ++ rstrip b)
    rw [rstrip_cons, ih]
    have hb : rstrip b ≠ [] := rstrip_ne_nil h
    have he : (a' ++ rstrip b).isEmpty = false := by
      simp [List.isEmpty_iff, hb]
    rw [he]
    simp

lemma lstrip_append (a b : List Char) (h : ∃ c ∈ a, ¬ pyIsSpace c) :
    lstrip (a ++ b) = lstrip a ++ b := by
  induction a with
  | nil => simp at h
  | cons x a' ih =>
    obtain ⟨c, hc, hcs⟩ := h
    show lstrip (x :: (a' ++ b)) = lstrip (x :: a') ++ b
    unfold lstrip
    by_cases hx : pyIsSpace x
    · rcases List.mem_cons.mp hc with rfl | hc
      · exact absurd hx hcs
      · simp only [hx, if_true]
        exact ih ⟨c, hc, hcs⟩
    · simp [hx]

lemma rstrip_append_space (l : List Char) (c : Char) (h : pyIsSpace c) :
    rstrip (l ++ [c]) = rstrip l := by
  induction l with
  | nil => simp [rstrip, h]
  | cons x l' ih =>
    show rstrip (x :: (l' ++ [c])) = rstrip (x :: l')
    unfold rstrip
    simp only [ih]

lemma joinNL_cons_ne (r : List Char) (t : List (List Char)) (h : t ≠ []) :
    joinNL (r :: t) = r ++ '\n' :: joinNL t := by
  cases t with
  | nil => exact absurd rfl h
  | cons s ts => rfl

lemma joinNL_concat (init : List (List Char)) (a : List Char)
    (h : init ≠ []) : joinNL (init ++ [a]) = joinNL init ++ '\n' :: a := by
  induction init with
  | nil => exact absurd rfl h
  | cons x rest ih =>
    cases rest with
    | nil => rfl
    | cons y ys =>
      have hne : (y :: ys) ++ [a] ≠ [] := by simp
      show joinNL (x :: ((y :: ys) ++ [a])) = _
      rw [joinNL_cons_ne x _ hne, ih (by simp),
        joinNL_cons_ne x (y :: ys) (by simp)]
      simp

lemma pySplit_no_nl (r : List Char) (h : '\n' ∉ r) : pySplit r = [r] := by
  induction r with
  | nil => rfl
  | cons c r' ih =>
    have hc : ¬ c = '\n' := fun hc => h (hc ▸ List.mem_cons_self c r')
    have h' : '\n' ∉ r' := fun hm => h (List.mem_cons_of_mem c hm)
    unfold pySplit
    simp only [hc, if_false, ih h']

lemma pySplit_append_nl (r t : List Char) (h : '\n' ∉ r) :
    pySplit (r ++ '\n' :: t) = r :: pySplit t := by
  induction r with
  | nil =>
    show pySplit ('\n' :: t) = [] :: pySplit t
    rw [pySplit_cons]
    simp
  | cons c r' ih =>
    have hc : ¬ c = '\n' := fun hc => h (hc ▸ List.mem_cons_self c r')
    have h' : '\n' ∉ r' := fun hm => h (List.mem_cons_of_mem c hm)
    show pySplit (c :: (r' ++ '\n' :: t)) = (c :: r') :: pySplit t
    rw [pySplit_cons]
    simp only [hc, if_false]
    rw [ih h']

lemma pySplit_joinNL (rows : List (List Char)) (hne : rows ≠ [])
    (h : ∀ r ∈ rows, '\n' ∉ r) : pySplit (joinNL rows) = rows := by
  induction rows with
  | nil => exact absurd rfl hne
  | cons r rest ih =>
    cases rest with
    | nil => exact pySplit_no_nl r (h r (List.mem_cons_self r []))
    | cons s ts =>
      rw [joinNL_cons_ne r (s :: ts) (by simp)]
      rw [pySplit_append_nl r _ (h r (List.mem_cons_self r _))]
      rw [ih (by simp) (fun x hx => h x (List.mem_cons_of_mem r hx))]

lemma parse_trailing_newline (layout : List Char) :
    parseMaze (layout ++ ['\n']) = parseMaze layout := by
  unfold parseMaze pyStrip
  rw [rstrip_append_space layout '\n' (by decide)]

lemma parse_joinNL_length (rows : List (List Char)) (hne : rows ≠ [])
    (hnb : ∀ r ∈ rows, (∃ c ∈ r, ¬ pyIsSpace c) ∧ '\n' ∉ r) :
    (parseMaze (joinNL rows)).length = rows.length := by
  obtain ⟨r0, rest, rfl⟩ : ∃ r0 rest, rows = r0 :: rest := by
    cases rows with
    | nil => exact absurd rfl hne
    | cons a b => exact ⟨a, b, rfl⟩
  rcases rest.eq_nil_or_concat with rfl | ⟨mid, rl, rfl⟩
  · have h0 := hnb r0 (List.mem_cons_self r0 [])
    show (pySplit (lstrip (rstrip r0))).length = 1
    have hnl : '\n' ∉ lstrip (rstrip r0) := fun hm =>
      h0.2 (mem_of_mem_rstrip (mem_of_mem_lstrip hm))
    rw [pySplit_no_nl _ hnl]
    rfl
  · rw [List.concat_eq_append] at hnb ⊢
    have h0 := hnb r0 (List.mem_cons_self r0 _)
    have hl := hnb rl (by simp)
    have hA : joinNL (r0 :: (mid ++ [rl])) =
        joinNL (r0 :: mid) ++ '\n' :: rl := by
      simpa using joinNL_concat (r0 :: mid) rl (by simp)
    have hB : rstrip (joinNL (r0 :: (mid ++ [rl]))) =
        joinNL (r0 :: mid) ++ '\n' :: rstrip rl := by
      rw [hA]
      have hsh : joinNL (r0 :: mid) ++ '\n' :: rl =
          (joinNL (r0 :: mid) ++ ['\n']) ++ rl := by simp
      rw [hsh, rstrip_append _ rl hl.1]
      simp
    have hC : rstrip (joinNL (r0 :: (mid ++ [rl]))) =
        joinNL (r0 :: (mid ++ [rstrip rl])) := by
      rw [hB]
      have := joinNL_concat (r0 :: mid) (rstrip rl) (by simp)
      simpa using this.symm
    have hD : pyStrip (joinNL (r0 :: (mid ++ [rl]))) =
        joinNL (lstrip r0 :: (mid ++ [rstrip rl])) := by
      unfold pyStrip
      rw [hC, joinNL_cons_ne r0 _ (by simp), lstrip_append _ _ h0.1,
        joinNL_cons_ne (lstrip r0) _ (by simp)]
    show (pySplit (pyStrip (joinNL (r0 :: (mid ++ [rl]))))).length = _
    rw [hD, pySplit_joinNL _ (by simp)]
    · simp
    · intro r hr
      rcases List.mem_cons.mp hr with rfl | hr
      · exact fun hm => h0.2 (mem_of_mem_lstrip hm)
      · rcases List.mem_append.mp hr with hr | hr
        · exact (hnb r (by simp [hr])).2
        · rw [List.mem_singleton.mp hr]
          exact fun hm => hl.2 (mem_of_mem_rstrip hm)

/-- C7: parsing a layout string consisting of H non-blank rows yields a
grid of exactly H rows, and appending a trailing blank line to any layout
yields the same grid as parsing the layout without it. -/
theorem C7_round_trip :
    (∀ rows : List (List Char), rows ≠ [] →
      (∀ r ∈ rows, (∃ c ∈ r, ¬ pyIsSpace c) ∧ '\n' ∉ r) →
      (parseMaze (joinNL rows)).length = rows.length) ∧
    (∀ layout : List Char, parseMaze (layout ++ ['\n']) = parseMaze layout) :=
  ⟨parse_joinNL_length, parse_trailing_newline⟩

/-- C7 witness: the concrete two-row layout "##" over "#." parses to
exactly 2 rows, and the same layout with a trailing newline parses to the
same grid. -/
theorem C7_round_trip_witness :
    (parseMaze (joinNL [['#', '#'], ['#', '.']])).length = 2 ∧
    parseMaze (['#', '#'] ++ ['\n']) = parseMaze ['#', '#'] :=
  ⟨C7_round_trip.1 [['#', '#'], ['#', '.']] (by decide) (by decide),
    C7_round_trip.2 ['#', '#']⟩

/-- C5 counterexample: the empty layout does not produce zero rows and the
load does not fail: `strip().split('\n')` yields one (empty) row, the
stage load succeeds, and the one-row grid is installed as the maze —
there is no MalformedLayout failure path in the code. -/
theorem C5_counterexample :
    parseMaze [] = [[]] ∧
    (load_stage (some emptyStage) 0 initState).2 = true ∧
    (load_stage (some emptyStage) 0 initState).1.maze = [[]] :=
  ⟨rfl, rfl, rfl⟩

lemma rstrip_all_space (l : List Char) (h : ∀ c ∈ l, pyIsSpace c) :
    rstrip l = [] := by
  induction l with
  | nil => rfl
  | cons c rest ih =>
    rw [rstrip_cons, ih (fun x hx => h x (List.mem_cons_of_mem c hx))]
    simp [h c (List.mem_cons_self c rest)]

/-- C5 amended: parsing never yields zero rows — the split of the stripped
layout always has at least one row, an all-blank (or empty) layout parses
to exactly one empty row, and the stage load succeeds exactly when the
level source returned data, independent of the layout's content. -/
theorem C5_amended :
    (∀ layout : List Char, 0 < (parseMaze layout).length) ∧
    (∀ layout : List Char, (∀ c ∈ layout, pyIsSpace c) →
      parseMaze layout = [[]]) ∧
    (∀ resp now s, (load_stage resp now s).2 = true ↔ resp.isSome = true) := by
  refine ⟨?_, ?_, ?_⟩
  · intro layout
    exact List.length_pos.mpr (pySplit_ne_nil _)
  · intro layout h
    unfold parseMaze pyStrip
    rw [rstrip_all_space layout h]
    rfl
  · intro resp now s
    cases resp with
    | none => simp [load_stage]
    | some d => simp [load_stage]

/-- C5 amended witness: a single-character layout has one row, the
one-space layout parses to one empty row, and a successful lookup makes
the load succeed. -/
theorem C5_amended_witness :
    0 < (parseMaze ['x']).length ∧
    parseMaze [' '] = [[]] ∧
    ((load_stage (some emptyStage) 0 initState).2 = true ↔
      (some emptyStage).isSome = true) :=
  ⟨C5_amended.1 ['x'], C5_amended.2.1 [' '] (by decide),
    C5_amended.2.2 (some emptyStage) 0 initState⟩

lemma ReachableE_runE (ok : Option StageData → Prop)
    (evs : List (Option StageData × Int × Input)) :
    ∀ s, ReachableE ok s → (∀ e ∈ evs, ok e.1) →
      ReachableE ok (runE evs s) := by
  induction evs with
  | nil => exact fun s h _ => h
  | cons e rest ih =>
    intro s h hok
    obtain ⟨resp, now, i⟩ := e
    exact ih _
      (ReachableE.step s resp now i (hok (resp, now, i) (List.mem_cons_self _ _)) h)
      (fun x hx => hok x (List.mem_cons_of_mem _ hx))

/-- C2 counterexample: the completion invariant is not preserved when a
stage load fails.  After completing stage 1 and then clicking continue
ten times while every lookup fails, the event loop reaches a state whose
phase is game-complete but whose current stage is 11, not the total 10:
each failed continue keeps the stage-complete phase while incrementing
the stage counter, and the final continue overshoots the total. -/
theorem C2_counterexample :
    ¬ (∀ s, ReachableE (fun _ => True) s →
        s.game_state = Phase.gameComplete →
        s.current_stage = s.total_stages) := by
  intro h
  have hreach : ReachableE (fun _ => True) c2BadState :=
    ReachableE_runE _ c2Trace _
      (ReachableE.init (some demoStage) 0 trivial (by decide))
      (fun e _ => trivial)
  exact absurd (h c2BadState hreach (by decide)) (by decide)

lemma handle_event_key_playing (resp : Option StageData) (now : Int)
    (s : GameState) (k : Key) (hp : s.game_state = Phase.playing) :
    handle_event resp now s (Input.key k) = handle_movement now s k := by
  simp [handle_event, hp]

lemma handle_event_click_sc (resp : Option StageData) (now : Int)
    (s : GameState) (h1 : s.game_state = Phase.stageComplete) :
    handle_event resp now s (Input.click true) = (next_stage resp now s, []) := by
  simp [handle_event, h1]

lemma handle_event_click_gc (resp : Option StageData) (now : Int)
    (s : GameState) (h2 : s.game_state = Phase.gameComplete) :
    handle_event resp now s (Input.click true) = restart_game resp now s := by
  simp [handle_event, h2]

lemma reachE_phase_inv (s : GameState)
    (h : ReachableE (fun r => r.isSome = true) s) : PhaseInv s := by
  induction h with
  | init resp now hok hsucc =>
    obtain ⟨d, rfl⟩ := Option.isSome_iff_exists.mp hok
    exact ⟨show (1 : Nat) ≤ 10 by omega, fun _ => show (1 : Nat) ≤ 10 by omega,
      fun hq => Phase.noConfusion hq, fun hq => Phase.noConfusion hq⟩
  | step s resp now i hok hr ih =>
    obtain ⟨inv1, invP, invS, invG⟩ := ih
    cases i with
    | quit => exact ⟨inv1, invP, invS, invG⟩
    | key k =>
      by_cases hp : s.game_state = Phase.playing
      · rw [handle_event_key_playing resp now s k hp]
        unfold handle_movement
        cases hd : keyDelta k with
        | none =>
          simp only [hd]
          exact ⟨inv1, invP, invS, invG⟩
        | some d =>
          obtain ⟨dx, dy⟩ := d
          simp only [hd]
          by_cases hv :
              is_valid_move s.maze (s.player_x + dx) (s.player_y + dy) = true
          · simp only [hv, if_true]
            split
            · unfold stage_completed
              split_ifs with hge
              · have hge' : s.total_stages ≤ s.current_stage := hge
                have hle := invP hp
                refine ⟨inv1, ?_, ?_, ?_⟩
                · intro hq; exact Phase.noConfusion hq
                · intro hq; exact Phase.noConfusion hq
                · intro _
                  show s.current_stage = s.total_stages
                  omega
              · have hge' : ¬ s.total_stages ≤ s.current_stage := hge
                refine ⟨inv1, ?_, ?_, ?_⟩
                · intro hq; exact Phase.noConfusion hq
                · intro _
                  show s.current_stage < s.total_stages
                  omega
                · intro hq; exact Phase.noConfusion hq
            · refine ⟨inv1, ?_, ?_, ?_⟩
              · intro _
                show s.current_stage ≤ s.total_stages
                exact invP hp
              · intro hq
                have hq' : s.game_state = Phase.stageComplete := hq
                rw [hp] at hq'
                exact Phase.noConfusion hq'
              · intro hq
                have hq' : s.game_state = Phase.gameComplete := hq
                rw [hp] at hq'
                exact Phase.noConfusion hq'
          · simp only [Bool.not_eq_true] at hv
            simp only [hv, Bool.false_eq_true, if_false]
            exact ⟨inv1, invP, invS, invG⟩
      · have hne : handle_event resp now s (Input.key k) = (s, []) :=
          handle_event_key_nonplaying resp now s k hp
        rw [hne]
        exact ⟨inv1, invP, invS, invG⟩
    | click hit =>
      cases hit with
      | false =>
        have hne : (handle_event resp now s (Input.click false)).1 = s := by
          unfold handle_event
          split_ifs <;> rfl
        rw [hne]
        exact ⟨inv1, invP, invS, invG⟩
      | true =>
        by_cases h1 : s.game_state = Phase.stageComplete
        · rw [handle_event_click_sc resp now s h1]
          obtain ⟨d, rfl⟩ := Option.isSome_iff_exists.mp hok
          have hlt : s.current_stage < s.total_stages := invS h1
          simp only [next_stage]
          split_ifs with hcc
          · refine ⟨inv1, ?_, ?_, ?_⟩
            · intro _
              show s.current_stage + 1 ≤ s.total_stages
              exact hcc
            · intro hq; exact Phase.noConfusion hq
            · intro hq; exact Phase.noConfusion hq
          · have hcc' : ¬ s.current_stage + 1 ≤ s.total_stages := hcc
            exact absurd hlt (by omega)
        · by_cases h2 : s.game_state = Phase.gameComplete
          · rw [handle_event_click_gc resp now s h2]
            obtain ⟨d, rfl⟩ := Option.isSome_iff_exists.mp hok
            refine ⟨inv1, ?_, ?_, ?_⟩
            · intro _
              show 1 ≤ s.total_stages
              exact inv1
            · intro hq; exact Phase.noConfusion hq
            · intro hq; exact Phase.noConfusion hq
          · have hp : s.game_state = Phase.playing := by
              cases hps : s.game_state with
              | playing => rfl
              | stageComplete => exact absurd hps h1
              | gameComplete => exact absurd hps h2
            have hne : handle_event resp now s (Input.click true) = (s, []) :=
              handle_event_click_playing resp now s true hp
            rw [hne]
            exact ⟨inv1, invP, invS, invG⟩

/-- C2 amended: in every state the event loop can reach while every stage
load succeeds, the game-complete phase implies the current stage equals
the total number of stages (the invariant as stated fails only after a
failed stage load, see the counterexample). -/
theorem C2_completion_invariant (s : GameState)
    (h : ReachableE (fun r => r.isSome = true) s)
    (hg : s.game_state = Phase.gameComplete) :
    s.current_stage = s.total_stages :=
  (reachE_phase_inv s h).2.2.2 hg

/-- C2 witness: playing all ten stages to completion with every load
succeeding reaches the game-complete phase with the stage counter equal
to the total. -/
theorem C2_completion_invariant_witness :
    c2DoneState.game_state = Phase.gameComplete ∧
    c2DoneState.current_stage = c2DoneState.total_stages :=
  ⟨by decide,
    C2_completion_invariant c2DoneState
      (ReachableE_runE _ c2OkTrace _
        (ReachableE.init (some demoStage) 0 (by decide) (by decide))
        (by decide))
      (by decide)⟩

lemma stage_completed_total_moves (now : Int) (s : GameState) :
    (stage_completed now s).1.total_moves = s.total_moves := by
  unfold stage_completed
  split_ifs <;> rfl

lemma handle_movement_counters (now : Int) (s : GameState) (k : Key) :
    ((handle_movement now s k).1.stage_moves = s.stage_moves ∧
      (handle_movement now s k).1.total_moves = s.total_moves) ∨
    ((handle_movement now s k).1.stage_moves = s.stage_moves + 1 ∧
      (handle_movement now s k).1.total_moves = s.total_moves + 1) := by
  unfold handle_movement
  cases hd : keyDelta k with
  | none => exact Or.inl ⟨rfl, rfl⟩
  | some d =>
    obtain ⟨dx, dy⟩ := d
    simp only [hd]
    by_cases hv : is_valid_move s.maze (s.player_x + dx) (s.player_y + dy) = true
    · simp only [hv, if_true]
      split
      · refine Or.inr ⟨?_, ?_⟩
        · rw [stage_completed_stage_moves]
        · rw [stage_completed_total_moves]
      · exact Or.inr ⟨rfl, rfl⟩
    · simp only [Bool.not_eq_true] at hv
      refine Or.inl ?_
      simp [hv]

lemma reachOp_moves_inv (s : GameState)
    (h : ReachableOp (fun r => r.isSome = true) s) :
    s.stage_moves ≤ s.total_moves := by
  induction h with
  | init resp now hok hsucc =>
    obtain ⟨d, rfl⟩ := Option.isSome_iff_exists.mp hok
    show (0 : Nat) ≤ 0
    omega
  | move s now k hr ih =>
    rcases handle_movement_counters now s k with ⟨h1, h2⟩ | ⟨h1, h2⟩ <;>
      rw [h1, h2] <;> omega
  | load s resp now hok hr ih =>
    obtain ⟨d, rfl⟩ := Option.isSome_iff_exists.mp hok
    show (0 : Nat) ≤ s.total_moves
    omega
  | next s resp now hok hr ih =>
    obtain ⟨d, rfl⟩ := Option.isSome_iff_exists.mp hok
    simp only [next_stage]
    split_ifs with hcc
    · show (0 : Nat) ≤ s.total_moves
      omega
    · exact ih
  | restart s resp now hok hr ih =>
    obtain ⟨d, rfl⟩ := Option.isSome_iff_exists.mp hok
    show (0 : Nat) ≤ 0
    omega

/-- C10 counterexample: the counter inequality fails on a reachable state.
After one accepted move, a restart whose stage-1 load fails zeroes the
total move counter but leaves the stage move counter at 1. -/
theorem C10_counterexample :
    ¬ (∀ s, ReachableOp (fun _ => True) s →
        s.stage_moves ≤ s.total_moves) := by
  intro h
  have r0 : ReachableOp (fun _ => True) (initGame (some demoStage) 0).1 :=
    ReachableOp.init (some demoStage) 0 trivial (by decide)
  have r1 := ReachableOp.move _ 0 Key.right r0
  have r2 := ReachableOp.restart _ none 0 trivial r1
  exact absurd (h _ r2) (by decide)

/-- C10 amended: the stage move counter never exceeds the total move
counter in any state reachable by the four operations as long as every
stage load succeeds (the inequality fails only when a restart's stage
load fails, see the counterexample). -/
theorem C10_counter_invariant (s : GameState)
    (h : ReachableOp (fun r => r.isSome = true) s) :
    s.stage_moves ≤ s.total_moves :=
  reachOp_moves_inv s h

/-- C10 witness: after a fresh start and one accepted move, with every
load succeeding, the counters satisfy the inequality (both are 1). -/
theorem C10_counter_invariant_witness :
    (handle_movement 0 (initGame (some demoStage) 0).1 Key.right).1.stage_moves ≤
      (handle_movement 0 (initGame (some demoStage) 0).1 Key.right).1.total_moves :=
  C10_counter_invariant _
    (ReachableOp.move _ 0 Key.right
      (ReachableOp.init (some demoStage) 0 (by decide) (by decide)))
